import Mathlib

/-!
Verification of the memory-activation engine of `app/services/gnn_processor.py`
(classes `ExternalMemory` and `GNNProcessor`, plus the state handling of
`MemoryGRU`).  Python float arrays are modelled as `List ℝ` (the spec reasons
"within floating tolerance", so reals are the idealisation); numpy operations
(`np.dot`, `np.linalg.norm`, `np.argsort`, `np.argmin`, `np.where`, fancy
indexing) are translated operation by operation.  The learned network forward
pass (`GraphSAGEMemory.forward`) is kept as an explicit parameter
(`ModelOutput`): its weights are random, so the orchestration code in
`activate_memories` is verified for every possible network output, with the
one guarantee the architecture gives (the activation head ends in a sigmoid,
so its scores lie in `[0,1]`) taken as a hypothesis where needed.
-/

/-- Vectors are lists of reals, mirroring 1-D numpy arrays. -/
abbrev Vec := List ℝ

/-- An all-zero vector, `np.zeros(n)`. -/
def zeroVec (n : ℕ) : Vec := List.replicate n 0

theorem length_zeroVec (n : ℕ) : (zeroVec n).length = n := by
  simp [zeroVec]

/-- Dot product of two vectors, `np.dot` on 1-D arrays. -/
def dotl (a b : Vec) : ℝ := (List.zipWith (fun x y => x * y) a b).sum

/-- Sum of squares of the entries of a vector. -/
def sumSq (v : Vec) : ℝ := (v.map fun x => x * x).sum

/-- Euclidean norm, `np.linalg.norm`. -/
noncomputable def norml (v : Vec) : ℝ := Real.sqrt (sumSq v)

/-- The `1e-8` guard the code adds to every norm before dividing. -/
noncomputable def memEps : ℝ := 1 / 100000000

/-- Cosine similarity as the code computes it:
`np.dot(a, b) / (np.linalg.norm(a) + 1e-8) / (np.linalg.norm(b) + 1e-8)`
(`gnn_processor.py` lines 183-185 and 331-333). -/
noncomputable def cosSimEps (a b : Vec) : ℝ :=
  dotl a b / (norml a + memEps) / (norml b + memEps)

theorem sumSq_nil : sumSq [] = 0 := by simp [sumSq]

theorem sumSq_cons (x : ℝ) (t : Vec) : sumSq (x :: t) = x * x + sumSq t := by
  simp [sumSq]

theorem dotl_nil_left (b : Vec) : dotl [] b = 0 := by simp [dotl]

theorem dotl_nil_right (a : Vec) : dotl a [] = 0 := by simp [dotl]

theorem dotl_cons (x y : ℝ) (a b : Vec) :
    dotl (x :: a) (y :: b) = x * y + dotl a b := by
  simp [dotl]

theorem sumSq_nonneg (v : Vec) : 0 ≤ sumSq v := by
  induction v with
  | nil => simp [sumSq_nil]
  | cons x t ih =>
    rw [sumSq_cons]
    nlinarith [mul_self_nonneg x]

theorem dotl_self (v : Vec) : dotl v v = sumSq v := by
  induction v with
  | nil => simp [dotl_nil_left, sumSq_nil]
  | cons x t ih => rw [dotl_cons, sumSq_cons, ih]

theorem norml_nonneg (v : Vec) : 0 ≤ norml v := Real.sqrt_nonneg _

theorem memEps_pos : (0 : ℝ) < memEps := by norm_num [memEps]

/-- Cauchy-Schwarz for list dot products (also valid when the lengths differ,
since `zipWith` truncates and squares are nonnegative). -/
theorem dotl_sq_le (a : Vec) : ∀ b : Vec, dotl a b ^ 2 ≤ sumSq a * sumSq b := by
  induction a with
  | nil =>
    intro b
    rw [dotl_nil_left, sumSq_nil]
    norm_num
  | cons x as ih =>
    intro b
    cases b with
    | nil =>
      rw [dotl_nil_right, sumSq_nil]
      norm_num
    | cons y bs =>
      rw [dotl_cons, sumSq_cons, sumSq_cons]
      have hA := sumSq_nonneg as
      have hB := sumSq_nonneg bs
      have hd2 := ih bs
      have habs : |dotl as bs| ≤ Real.sqrt (sumSq as) * Real.sqrt (sumSq bs) := by
        rw [← Real.sqrt_sq_eq_abs, ← Real.sqrt_mul hA]
        exact Real.sqrt_le_sqrt hd2
      have h1 := (abs_le.mp habs).1
      have h2 := (abs_le.mp habs).2
      have hsA : Real.sqrt (sumSq as) ^ 2 = sumSq as := Real.sq_sqrt hA
      have hsB : Real.sqrt (sumSq bs) ^ 2 = sumSq bs := Real.sq_sqrt hB
      have hsA0 : 0 ≤ Real.sqrt (sumSq as) := Real.sqrt_nonneg _
      have hsB0 : 0 ≤ Real.sqrt (sumSq bs) := Real.sqrt_nonneg _
      rcases le_or_lt 0 (x * y) with hxy | hxy
      · nlinarith [sq_nonneg (x * Real.sqrt (sumSq bs) - y * Real.sqrt (sumSq as)),
          mul_le_mul_of_nonneg_left h2 hxy,
          mul_nonneg (mul_nonneg hsA0 hsB0) (sub_nonneg.mpr h2)]
      · nlinarith [sq_nonneg (x * Real.sqrt (sumSq bs) + y * Real.sqrt (sumSq as)),
          mul_le_mul_of_nonpos_left h1 hxy.le,
          mul_nonneg (mul_nonneg hsA0 hsB0) (sub_nonneg.mpr h2)]

theorem abs_dotl_le (a b : Vec) : |dotl a b| ≤ norml a * norml b := by
  rw [← Real.sqrt_sq_eq_abs, norml, norml, ← Real.sqrt_mul (sumSq_nonneg a)]
  exact Real.sqrt_le_sqrt (dotl_sq_le a b)

/-- The code never clamps similarities, but they are bounded by 1 in absolute
value because the epsilon only enlarges the denominators. -/
theorem abs_cosSimEps_le_one (a b : Vec) : |cosSimEps a b| ≤ 1 := by
  have hpa : 0 < norml a + memEps := by
    have := norml_nonneg a
    have := memEps_pos
    linarith
  have hpb : 0 < norml b + memEps := by
    have := norml_nonneg b
    have := memEps_pos
    linarith
  rw [cosSimEps, abs_div, abs_div, abs_of_pos hpa, abs_of_pos hpb,
    div_div]
  rw [div_le_one (by positivity)]
  calc |dotl a b| ≤ norml a * norml b := abs_dotl_le a b
    _ ≤ (norml a + memEps) * (norml b + memEps) := by
        have ha := norml_nonneg a
        have hb := norml_nonneg b
        have he := memEps_pos
        nlinarith

theorem cosSimEps_le_one (a b : Vec) : cosSimEps a b ≤ 1 :=
  le_trans (le_abs_self _) (abs_cosSimEps_le_one a b)

theorem neg_one_le_cosSimEps (a b : Vec) : -1 ≤ cosSimEps a b := by
  have := abs_cosSimEps_le_one a b
  have := abs_le.mp this
  linarith [this.1]

/-! ### Sorting: `np.argsort` and `np.argmin`

`np.argsort(x)` is modelled as the stable ascending argsort: indices ordered
by value, ties by index.  (For the tie-involving statements below the arrays
have at most a handful of entries, where numpy's introsort is an insertion
sort and therefore stable.)  `np.argmin` returns the first index attaining
the minimum. -/

/-- Stable ascending comparison on indices into the score list `s`:
by value, ties broken by index.  On distinct indices it is a linear order,
so the sorted permutation of `range n` is unique. -/
def rkRel (s : List ℝ) (i j : ℕ) : Prop :=
  s.getD i 0 < s.getD j 0 ∨ (s.getD i 0 = s.getD j 0 ∧ i ≤ j)

noncomputable instance rkRelDec (s : List ℝ) : DecidableRel (rkRel s) := fun i j =>
  inferInstanceAs (Decidable (s.getD i 0 < s.getD j 0 ∨ (s.getD i 0 = s.getD j 0 ∧ i ≤ j)))

instance rkRelTotal (s : List ℝ) : IsTotal ℕ (rkRel s) := by
  constructor
  intro i j
  rcases lt_trichotomy (s.getD i 0) (s.getD j 0) with h | h | h
  · exact Or.inl (Or.inl h)
  · rcases le_total i j with hij | hij
    · exact Or.inl (Or.inr ⟨h, hij⟩)
    · exact Or.inr (Or.inr ⟨h.symm, hij⟩)
  · exact Or.inr (Or.inl h)

instance rkRelTrans (s : List ℝ) : IsTrans ℕ (rkRel s) := by
  constructor
  intro i j k hij hjk
  rcases hij with h1 | ⟨h1, h1'⟩
  · rcases hjk with h2 | ⟨h2, _⟩
    · exact Or.inl (h1.trans h2)
    · exact Or.inl (h2 ▸ h1)
  · rcases hjk with h2 | ⟨h2, h2'⟩
    · exact Or.inl (h1 ▸ h2)
    · exact Or.inr ⟨h1.trans h2, h1'.trans h2'⟩

/-- Model of `np.argsort(s)`: the indices `0 .. len(s)-1` sorted ascending by
value, ties by index. -/
noncomputable def argsortAsc (s : List ℝ) : List ℕ :=
  List.insertionSort (rkRel s) (List.range s.length)

theorem argsortAsc_perm (s : List ℝ) : (argsortAsc s).Perm (List.range s.length) :=
  List.perm_insertionSort _ _

theorem argsortAsc_sorted (s : List ℝ) : List.Sorted (rkRel s) (argsortAsc s) :=
  List.sorted_insertionSort _ _

theorem argsortAsc_nodup (s : List ℝ) : (argsortAsc s).Nodup :=
  (argsortAsc_perm s).symm.nodup (List.nodup_range _)

theorem mem_argsortAsc (s : List ℝ) (i : ℕ) : i ∈ argsortAsc s ↔ i < s.length := by
  rw [(argsortAsc_perm s).mem_iff, List.mem_range]

/-- Model of `np.argsort(scores)[::-1][:k]` (lines 188 and 339): the index
list of the top `k` scores, descending, ties in reverse index order. -/
noncomputable def rankedIndices (s : List ℝ) (k : ℕ) : List ℕ :=
  (argsortAsc s).reverse.take k

theorem rankedIndices_mem_lt (s : List ℝ) (k i : ℕ) (h : i ∈ rankedIndices s k) :
    i < s.length := by
  have h1 : i ∈ (argsortAsc s).reverse := List.take_subset _ _ h
  rw [List.mem_reverse] at h1
  exact (mem_argsortAsc s i).mp h1

theorem rankedIndices_nodup (s : List ℝ) (k : ℕ) : (rankedIndices s k).Nodup :=
  (List.nodup_reverse.mpr (argsortAsc_nodup s)).sublist (List.take_sublist _ _)

/-- The selected index list is sorted strictly descending in the
lexicographic order (score first, then index): ties between equal scores
come out in reverse original order because the ascending argsort is
reversed. -/
theorem rankedIndices_sorted (s : List ℝ) (k : ℕ) :
    List.Pairwise
      (fun i j => s.getD j 0 < s.getD i 0 ∨ (s.getD i 0 = s.getD j 0 ∧ j < i))
      (rankedIndices s k) := by
  have hrev : (argsortAsc s).reverse.Pairwise (fun i j => rkRel s j i) :=
    List.pairwise_reverse.mpr (argsortAsc_sorted s)
  have hne : (argsortAsc s).reverse.Pairwise (fun i j => i ≠ j) :=
    List.nodup_reverse.mpr (argsortAsc_nodup s)
  have hboth := (hrev.and hne).sublist (List.take_sublist k _)
  refine hboth.imp ?_
  rintro i j ⟨hr | ⟨heq, hle⟩, hne2⟩
  · exact Or.inl hr
  · exact Or.inr ⟨heq.symm, lt_of_le_of_ne hle (fun h => hne2 h.symm)⟩

/-- One step of the `np.argmin` scan: keep the earlier index unless a
strictly smaller value appears. -/
noncomputable def argminStep (l : List ℝ) (best i : ℕ) : ℕ :=
  if l.getD i 0 < l.getD best 0 then i else best

/-- Model of `np.argmin(l)`: the first index attaining the minimum value. -/
noncomputable def argminIdx (l : List ℝ) : ℕ :=
  (List.range l.length).foldl (argminStep l) 0

noncomputable def argminAux (l : List ℝ) (n : ℕ) : ℕ :=
  (List.range n).foldl (argminStep l) 0

theorem argminIdx_eq_aux (l : List ℝ) : argminIdx l = argminAux l l.length := rfl

theorem argminAux_zero (l : List ℝ) : argminAux l 0 = 0 := rfl

theorem argminAux_succ (l : List ℝ) (n : ℕ) :
    argminAux l (n + 1) = argminStep l (argminAux l n) n := by
  unfold argminAux
  rw [List.range_succ, List.foldl_append]
  rfl

theorem argminAux_lt (l : List ℝ) (n : ℕ) (h : 0 < n) : argminAux l n < n := by
  induction n with
  | zero => omega
  | succ m ih =>
    rw [argminAux_succ]
    unfold argminStep
    by_cases hlt : l.getD m 0 < l.getD (argminAux l m) 0
    · rw [if_pos hlt]
      omega
    · rw [if_neg hlt]
      rcases Nat.eq_zero_or_pos m with hm | hm
      · subst hm
        rw [argminAux_zero]
        omega
      · exact (ih hm).trans (Nat.lt_succ_self m)

theorem argminAux_min (l : List ℝ) (n : ℕ) :
    ∀ j, j < n → l.getD (argminAux l n) 0 ≤ l.getD j 0 := by
  induction n with
  | zero => omega
  | succ m ih =>
    intro j hj
    rw [argminAux_succ]
    unfold argminStep
    by_cases hlt : l.getD m 0 < l.getD (argminAux l m) 0
    · rw [if_pos hlt]
      rcases Nat.lt_succ_iff_lt_or_eq.mp hj with h | h
      · exact le_trans hlt.le (ih j h)
      · subst h
        exact le_refl _
    · rw [if_neg hlt]
      rcases Nat.lt_succ_iff_lt_or_eq.mp hj with h | h
      · exact ih j h
      · subst h
        exact not_lt.mp hlt

theorem argminAux_first (l : List ℝ) (n : ℕ) :
    ∀ j, j < argminAux l n → l.getD (argminAux l n) 0 < l.getD j 0 := by
  induction n with
  | zero =>
    intro j hj
    rw [argminAux_zero] at hj
    omega
  | succ m ih =>
    intro j hj
    rw [argminAux_succ] at hj ⊢
    unfold argminStep at hj ⊢
    by_cases hlt : l.getD m 0 < l.getD (argminAux l m) 0
    · rw [if_pos hlt] at hj ⊢
      exact lt_of_lt_of_le hlt (argminAux_min l m j hj)
    · rw [if_neg hlt] at hj ⊢
      exact ih j hj

theorem argminIdx_lt (l : List ℝ) (h : l ≠ []) : argminIdx l < l.length := by
  rw [argminIdx_eq_aux]
  exact argminAux_lt l l.length (List.length_pos.mpr h)

theorem argminIdx_min (l : List ℝ) (j : ℕ) (hj : j < l.length) :
    l.getD (argminIdx l) 0 ≤ l.getD j 0 := by
  rw [argminIdx_eq_aux]
  exact argminAux_min l l.length j hj

theorem argminIdx_first (l : List ℝ) (j : ℕ) (hj : j < argminIdx l) :
    l.getD (argminIdx l) 0 < l.getD j 0 := by
  have := argminAux_first l l.length j
  rw [argminIdx_eq_aux]
  exact this (by rw [argminIdx_eq_aux] at hj; exact hj)

/-! ### Settings (`app/core/config.py`, class `Settings`) -/

/-- `Settings.VECTOR_DIMENSION` (default 384). -/
def VECTOR_DIMENSION : ℕ := 384

/-- `Settings.GNN_HIDDEN_DIM` (default 128); also the `key_dim` of the
processor's external memory (`GNNProcessor.__init__`, lines 217-220). -/
def GNN_HIDDEN_DIM : ℕ := 128

/-- `Settings.MAX_MEMORY_NODES` (default 10000). -/
def MAX_MEMORY_NODES : ℕ := 10000

/-- `Settings.MEMORY_DECAY_FACTOR` (default 0.95). -/
noncomputable def MEMORY_DECAY_FACTOR : ℝ := 19 / 20

/-! ### External Key-Value Memory (`class ExternalMemory`) -/

/-- State of `ExternalMemory`: fixed-capacity matrices `keys`, `values`
(rows of width `key_dim`), a usage array, and the occupied-slot counter. -/
structure ExternalMemory where
  memory_size : ℕ
  key_dim : ℕ
  keys : List Vec
  values : List Vec
  usage : List ℝ
  current_size : ℕ

/-- `ExternalMemory.__init__(memory_size, key_dim)`: all-zero matrices and
counter zero. -/
def initMemory (memory_size key_dim : ℕ) : ExternalMemory :=
  ⟨memory_size, key_dim, List.replicate memory_size (zeroVec key_dim),
    List.replicate memory_size (zeroVec key_dim),
    List.replicate memory_size 0, 0⟩

/-- Shape bookkeeping that `__init__` establishes and every operation
preserves: the three arrays have length `memory_size`. -/
def ExternalMemory.wf (m : ExternalMemory) : Prop :=
  m.keys.length = m.memory_size ∧ m.values.length = m.memory_size ∧
    m.usage.length = m.memory_size

theorem initMemory_memory_size (a b : ℕ) : (initMemory a b).memory_size = a := rfl

theorem initMemory_key_dim (a b : ℕ) : (initMemory a b).key_dim = b := rfl

theorem initMemory_current_size (a b : ℕ) : (initMemory a b).current_size = 0 := rfl

theorem initMemory_keys (a b : ℕ) :
    (initMemory a b).keys = List.replicate a (zeroVec b) := rfl

theorem initMemory_values (a b : ℕ) :
    (initMemory a b).values = List.replicate a (zeroVec b) := rfl

theorem initMemory_usage (a b : ℕ) :
    (initMemory a b).usage = List.replicate a 0 := rfl

/-- Numpy row assignment `rows[idx] = v` into a matrix whose rows have width
`dim`: succeeds when the widths agree, broadcasts a length-1 vector, and
raises `ValueError` ("could not broadcast") otherwise. -/
def setRow (rows : List Vec) (idx dim : ℕ) (v : Vec) : Option (List Vec) :=
  if v.length = dim then some (rows.set idx v)
  else if v.length = 1 then some (rows.set idx (List.replicate dim (v.getD 0 0)))
  else none

/-- `ExternalMemory.write(key, value)` (lines 151-165).  Below capacity the
next free slot is chosen and `current_size` is incremented FIRST; at capacity
the slot with minimal usage (first-found) is chosen.  Then the three
assignments run in order; a shape failure raises out of the method with the
mutations made so far kept (the `.error` payload is the state the exception
leaves behind). -/
noncomputable def ExternalMemory.write (m : ExternalMemory) (key value : Vec) :
    Except ExternalMemory (ExternalMemory × ℕ) :=
  let idx := if m.current_size < m.memory_size then m.current_size
             else argminIdx m.usage
  let m1 := if m.current_size < m.memory_size then
              { m with current_size := m.current_size + 1 }
            else m
  match setRow m1.keys idx m.key_dim key with
  | none => .error m1
  | some ks =>
    match setRow m1.values idx m.key_dim value with
    | none => .error { m1 with keys := ks }
    | some vs =>
      .ok ({ m1 with keys := ks, values := vs, usage := m1.usage.set idx 1 }, idx)

/-- `ExternalMemory.read(query, k)` (lines 167-196).  Empty store: `k`
zero-vectors with zero similarity, no mutation.  Otherwise cosine
similarities (with the 1e-8 guards) against the first `current_size` keys,
top-`k` by reversed argsort, a 0.1 usage bump for each returned slot.  The
`np.dot` of the `(current_size, key_dim)` key matrix with the query raises
when the query width differs from `key_dim`. -/
noncomputable def ExternalMemory.read (m : ExternalMemory) (query : Vec) (k : ℕ) :
    Except Unit ((List Vec × List ℝ) × ExternalMemory) :=
  if m.current_size = 0 then
    .ok ((List.replicate k (zeroVec m.key_dim), List.replicate k 0), m)
  else if query.length ≠ m.key_dim then .error ()
  else
    let sims := (m.keys.take m.current_size).map fun kv => cosSimEps kv query
    let top := rankedIndices sims k
    let usage1 := top.foldl (fun u i => u.set i (u.getD i 0 + 1 / 10)) m.usage
    .ok ((top.map fun i => m.values.getD i [],
          top.map fun i => sims.getD i 0),
         { m with usage := usage1 })

/-- The cleanup threshold in `GNNProcessor._apply_memory_decay` (line 429). -/
noncomputable def lowThreshold : ℝ := 1 / 100

/-- `GNNProcessor._apply_memory_decay` (lines 424-434): multiply every usage
entry by the decay factor, collect the indices whose decayed usage is below
the threshold (`np.where` returns them in ascending order), and zero the
usage of the first half of them (` [:len//2]`; the `if len > 0` guard is a
no-op since half of nothing is nothing). -/
noncomputable def apply_memory_decay (m : ExternalMemory) (factor : ℝ) :
    ExternalMemory :=
  let u1 := m.usage.map fun x => x * factor
  let low := (List.range u1.length).filter fun i => decide (u1.getD i 0 < lowThreshold)
  let toZero := low.take (low.length / 2)
  { m with usage := toZero.foldl (fun u i => u.set i 0) u1 }

/-- `GNNProcessor.update_memory_with_interaction` (lines 361-390): write the
interaction embedding as both key and value, then run the decay pass with
`settings.MEMORY_DECAY_FACTOR`.  The whole body is wrapped in
`try/except Exception`, so a failing write leaves the partially mutated
store and skips the decay pass. -/
noncomputable def update_memory_with_interaction (m : ExternalMemory)
    (embedding : Vec) : ExternalMemory :=
  match m.write embedding embedding with
  | .error m1 => m1
  | .ok (m1, _) => apply_memory_decay m1 MEMORY_DECAY_FACTOR

/-! ### Per-record hidden states (`GNNProcessor._get_memory_states`) -/

/-- `GNNProcessor._get_memory_states(node_ids)` (lines 392-411), with the
`torch.randn(settings.GNN_HIDDEN_DIM)` draws supplied by `fresh`: for each id
in order, use the stored state if present, otherwise draw a fresh one AND
store it.  Returns the state list and the updated state dict (modelled as an
association list; `lookup` finds the most recent insertion). -/
def get_memory_states (fresh : String → Vec) :
    List String → List (String × Vec) → List Vec × List (String × Vec)
  | [], dict => ([], dict)
  | id :: rest, dict =>
    match dict.lookup id with
    | some s =>
      let r := get_memory_states fresh rest dict
      (s :: r.1, r.2)
    | none =>
      let s := fresh id
      let r := get_memory_states fresh rest ((id, s) :: dict)
      (s :: r.1, r.2)

/-! ### The activation orchestrator (`GNNProcessor.activate_memories`) -/

/-- A candidate memory record as `activate_memories` consumes it: opaque id,
embedding, and the valence/arousal pair. -/
structure MemoryNode (α : Type) where
  id : α
  embedding : Vec
  valence : ℝ
  arousal : ℝ

instance (α : Type) [Inhabited α] : Inhabited (MemoryNode α) :=
  ⟨⟨default, [], 0, 0⟩⟩

/-- The output of the network forward pass (`GraphSAGEMemory.forward`), kept
abstract because the weights are random: the combined per-node embeddings
(`output['node_embeddings']`, rows of width `hidden_dim`) and the flattened
activation scores (`output['activation_scores']`, sigmoid outputs). -/
structure ModelOutput where
  node_embeddings : List Vec
  activation_scores : List ℝ

/-- One entry of the ranked list: the candidate dict copy annotated with
`memory['activation_score']` (the blended score) and
`memory['similarity_score']` (the raw cosine similarity), lines 344-346. -/
structure ActivatedMemory (α : Type) where
  node : MemoryNode α
  activation_score : ℝ
  similarity_score : ℝ

/-- The per-node feature rows built by `create_graph_data` (lines 247-254):
each embedding concatenated with its `[valence, arousal]` pair. -/
def featureRows (α : Type) (nodes : List (MemoryNode α)) : List Vec :=
  nodes.map fun nd => nd.embedding ++ [nd.valence, nd.arousal]

/-- Whether a list of rows forms a rectangular matrix;
`torch.tensor(node_features)` (line 257) raises on ragged rows. -/
def sameLengthsB : List Vec → Bool
  | [] => true
  | r :: rest => rest.all fun r2 => r2.length == r.length

/-- The similarity computation of lines 331-333: cosine (with the 1e-8
guards) of each combined node embedding against the query. -/
noncomputable def similaritiesTo (rows : List Vec) (q : Vec) : List ℝ :=
  rows.map fun r => cosSimEps r q

/-- Line 336: `final_scores = 0.7 * similarities + 0.3 * activation_scores`. -/
noncomputable def finalScores (sims acts : List ℝ) : List ℝ :=
  List.zipWith (fun s a => 7 / 10 * s + 3 / 10 * a) sims acts

/-- `GNNProcessor.activate_memories` (lines 285-359), from the model forward
pass onward; the graph construction's shape behaviour is kept (ragged
feature rows raise in `create_graph_data`).  The whole body runs under
`try/except Exception: return []`, so every raising step is modelled as
returning `[]`:
ragged feature rows (line 257); `np.dot(node_embeddings, query_embedding)`
(line 331) when the embedding width differs from the query width; and the
final `self.external_memory.read(query_embedding, ...)` (line 350), whose
`np.dot` raises when the store is non-empty and its `key_dim` differs from
the query width — that call runs after the ranked list is built and its
failure discards the list. -/
noncomputable def activate_memories {α : Type} [Inhabited α]
    (nodes : List (MemoryNode α)) (out : ModelOutput) (ext : ExternalMemory)
    (query : Vec) (top_k : ℕ) : List (ActivatedMemory α) :=
  if nodes.isEmpty then []
  else if ¬ sameLengthsB (featureRows α nodes) then []
  else if ¬ out.node_embeddings.all (fun r => r.length == query.length) then []
  else
    let sims := similaritiesTo out.node_embeddings query
    let finals := finalScores sims out.activation_scores
    let tops := rankedIndices finals top_k
    let activated := (tops.filter fun i => decide (i < nodes.length)).map
        fun i => ⟨nodes.getD i default, finals.getD i 0, sims.getD i 0⟩
    if ext.current_size ≠ 0 ∧ ext.key_dim ≠ query.length then [] else activated

/-! ### Small evaluation helpers for concrete runs -/

theorem argsortAsc_singleton (x : ℝ) : argsortAsc [x] = [0] := by
  have h : List.range ([x] : List ℝ).length = [0] := rfl
  rw [argsortAsc, h]
  simp [List.insertionSort, List.orderedInsert]

theorem argsortAsc_pair_tie (x : ℝ) : argsortAsc [x, x] = [0, 1] := by
  have h01 : rkRel [x, x] 0 1 := Or.inr ⟨rfl, by omega⟩
  have hrange : List.range ([x, x] : List ℝ).length = [0, 1] := by
    simp [List.range_succ]
  rw [argsortAsc, hrange]
  simp only [List.insertionSort, List.orderedInsert]
  rw [if_pos h01]

theorem getD_map_cos (l : List Vec) (q : Vec) (i : ℕ) (h : i < l.length) :
    (similaritiesTo l q).getD i 0 = cosSimEps (l.getD i []) q := by
  rw [similaritiesTo, List.getD_eq_getElem _ _ (by simpa using h),
    List.getElem_map, List.getD_eq_getElem _ _ h]

theorem finalScores_getD (sims acts : List ℝ) (i : ℕ)
    (h1 : i < sims.length) (h2 : i < acts.length) :
    (finalScores sims acts).getD i 0 =
      7 / 10 * sims.getD i 0 + 3 / 10 * acts.getD i 0 := by
  have hl : i < (finalScores sims acts).length := by
    simp [finalScores]
    omega
  rw [finalScores] at hl ⊢
  rw [List.getD_eq_getElem _ _ hl, List.getElem_zipWith,
    List.getD_eq_getElem _ _ h1, List.getD_eq_getElem _ _ h2]

/-! ### Claim C1 -/

/-- Claim C1, as stated, is false: nothing clamps the scores, and the raw
cosine similarity of lines 331-333 is negative whenever the combined
embedding points away from the query.  On one candidate whose network
embedding is `[-1]` against query `[1]` (an output the randomly initialised
network can produce), the returned entry has `similarity_score < 0` and
`activation_score < 0`, both outside `[0,1]`. -/
theorem c1_counterexample :
    ∃ e ∈ activate_memories (α := ℕ) [⟨0, [1], 0, 0⟩]
        ⟨[[-1]], [1 / 2]⟩ (initMemory 4 1) [1] 1,
      e.similarity_score < 0 ∧ e.activation_score < 0 := by
  have hsum : sumSq [(-1 : ℝ)] = 1 := by
    rw [sumSq_cons, sumSq_nil]
    norm_num
  have hsum1 : sumSq [(1 : ℝ)] = 1 := by
    rw [sumSq_cons, sumSq_nil]
    norm_num
  have hn : norml [(-1 : ℝ)] = 1 := by
    rw [norml, hsum, Real.sqrt_one]
  have hn1 : norml [(1 : ℝ)] = 1 := by
    rw [norml, hsum1, Real.sqrt_one]
  have hdot : dotl [(-1 : ℝ)] [1] = -1 := by
    rw [dotl_cons, dotl_nil_left]
    norm_num
  have hcos : cosSimEps [(-1 : ℝ)] [1] = -1 / (1 + memEps) / (1 + memEps) := by
    rw [cosSimEps, hn, hn1, hdot]
  have hcneg : cosSimEps [(-1 : ℝ)] [1] < 0 := by
    rw [hcos, memEps]
    norm_num
  have hfneg : 7 / 10 * cosSimEps [(-1 : ℝ)] [1] + 3 / 10 * (1 / 2) < 0 := by
    rw [hcos, memEps]
    norm_num
  have hsims : similaritiesTo [[(-1 : ℝ)]] [1] = [cosSimEps [-1] [1]] := by
    simp [similaritiesTo]
  have hfin : finalScores [cosSimEps [(-1 : ℝ)] [1]] [1 / 2] =
      [7 / 10 * cosSimEps [-1] [1] + 3 / 10 * (1 / 2)] := by
    simp [finalScores]
  refine ⟨⟨⟨0, [1], 0, 0⟩, 7 / 10 * cosSimEps [-1] [1] + 3 / 10 * (1 / 2),
    cosSimEps [-1] [1]⟩, ?_, hcneg, hfneg⟩
  rw [activate_memories]
  simp only [List.isEmpty_cons, featureRows, sameLengthsB, similaritiesTo,
    List.map, List.all_nil, List.all_cons, Bool.and_true, beq_iff_eq,
    List.length_cons, List.length_nil]
  norm_num
  refine ⟨?_, ?_⟩
  · intro h
    simp [initMemory] at h
  · rw [hfin]
    norm_num

theorem similaritiesTo_getD_bound (rows : List Vec) (q : Vec) (i : ℕ) :
    -1 ≤ (similaritiesTo rows q).getD i 0 ∧ (similaritiesTo rows q).getD i 0 ≤ 1 := by
  rcases lt_or_le i rows.length with h | h
  · rw [getD_map_cos rows q i h]
    exact ⟨neg_one_le_cosSimEps _ _, cosSimEps_le_one _ _⟩
  · rw [similaritiesTo, List.getD_eq_default _ _ (by simpa using h)]
    norm_num

theorem finalScores_getD_bound (sims acts : List ℝ)
    (hs : ∀ i, -1 ≤ sims.getD i 0 ∧ sims.getD i 0 ≤ 1)
    (hacts : ∀ a ∈ acts, 0 ≤ a ∧ a ≤ 1) (i : ℕ) :
    -1 ≤ (finalScores sims acts).getD i 0 ∧ (finalScores sims acts).getD i 0 ≤ 1 := by
  rcases lt_or_le i (finalScores sims acts).length with h | h
  · have hlen : i < sims.length ∧ i < acts.length := by
      rw [finalScores, List.length_zipWith] at h
      omega
    rw [finalScores_getD sims acts i hlen.1 hlen.2]
    have hmem : acts.getD i 0 ∈ acts := by
      rw [List.getD_eq_getElem _ _ hlen.2]
      exact List.getElem_mem _
    have ha := hacts _ hmem
    have hsi := hs i
    constructor
    · linarith [hsi.1, ha.1]
    · linarith [hsi.2, ha.2]
  · rw [List.getD_eq_default _ _ h]
    norm_num

/-- Claim C1 (amended): with the one architectural guarantee that the raw
activation scores are sigmoid outputs in `[0,1]`, every entry of the ranked
list has `similarity_score` in `[-1,1]` and `activation_score` (the blended
score the code stores in that field) in `[-1,1]`.  The claimed `[0,1]` lower
bound does not hold (see `c1_counterexample`); nothing in the code clamps
either quantity. -/
theorem c1_scores_bounded {α : Type} [Inhabited α]
    (nodes : List (MemoryNode α)) (out : ModelOutput) (ext : ExternalMemory)
    (query : Vec) (top_k : ℕ)
    (hacts : ∀ a ∈ out.activation_scores, 0 ≤ a ∧ a ≤ 1) :
    ∀ e ∈ activate_memories nodes out ext query top_k,
      (-1 ≤ e.similarity_score ∧ e.similarity_score ≤ 1) ∧
      (-1 ≤ e.activation_score ∧ e.activation_score ≤ 1) := by
  intro e he
  rw [activate_memories] at he
  split at he
  · exact absurd he (List.not_mem_nil e)
  · split at he
    · exact absurd he (List.not_mem_nil e)
    · split at he
      · exact absurd he (List.not_mem_nil e)
      · split at he
        · exact absurd he (List.not_mem_nil e)
        · rcases List.mem_map.mp he with ⟨i, _, rfl⟩
          refine ⟨similaritiesTo_getD_bound _ _ _, ?_⟩
          exact finalScores_getD_bound _ _
            (fun j => similaritiesTo_getD_bound _ _ _) hacts i

theorem c1_scores_bounded_witness :
    (∀ a ∈ ([1 / 2] : List ℝ), 0 ≤ a ∧ a ≤ 1) ∧
    ∀ e ∈ activate_memories (α := ℕ) [⟨0, [1], 0, 0⟩]
        ⟨[[1]], [1 / 2]⟩ (initMemory 4 1) [1] 1,
      (-1 ≤ e.similarity_score ∧ e.similarity_score ≤ 1) ∧
      (-1 ≤ e.activation_score ∧ e.activation_score ≤ 1) := by
  constructor
  · intro a ha
    rw [List.mem_singleton] at ha
    subst ha
    norm_num
  · exact c1_scores_bounded _ _ _ _ _ (by
      intro a ha
      rw [List.mem_singleton] at ha
      subst ha
      norm_num)

/-! ### Claim C3 -/

/-- Claim C3, as stated, is false on ties: `np.argsort` is ascending and
stable (equal scores in index order), and the `[::-1]` reversal therefore
puts equal-score candidates in REVERSE original order.  Two candidates with
identical embeddings and activation scores come back as `[id 1, id 0]`, not
in original candidate order `[id 0, id 1]`. -/
theorem c3_counterexample :
    (activate_memories (α := ℕ)
        [⟨0, [1], 0, 0⟩, ⟨1, [1], 0, 0⟩]
        ⟨[[1], [1]], [1 / 2, 1 / 2]⟩ (initMemory 4 1) [1] 2).map
      (fun e => e.node.id) = [1, 0] ∧ ([1, 0] : List ℕ) ≠ [0, 1] := by
  refine ⟨?_, by decide⟩
  have hs : similaritiesTo [[(1 : ℝ)], [1]] [1] =
      [cosSimEps [1] [1], cosSimEps [1] [1]] := by
    simp [similaritiesTo]
  have hf : finalScores [cosSimEps [(1 : ℝ)] [1], cosSimEps [1] [1]]
      [1 / 2, 1 / 2] =
      [7 / 10 * cosSimEps [1] [1] + 3 / 10 * (1 / 2),
       7 / 10 * cosSimEps [1] [1] + 3 / 10 * (1 / 2)] := by
    simp [finalScores]
  have htops : rankedIndices (finalScores (similaritiesTo [[(1 : ℝ)], [1]] [1])
      [1 / 2, 1 / 2]) 2 = [1, 0] := by
    rw [hs, hf, rankedIndices, argsortAsc_pair_tie]
    rfl
  rw [activate_memories]
  simp only [List.isEmpty_cons, featureRows, sameLengthsB, List.map,
    List.all_cons, List.all_nil, Bool.and_true, beq_iff_eq, List.length_cons,
    List.length_nil]
  norm_num
  rw [htops]
  simp [initMemory, hs]

/-- Claim C3 (amended): on a successful pass (no raising step), the ranked
list consists of the candidates at `rankedIndices`, and that index list is
sorted strictly descending in the lexicographic order (blended score first,
then candidate index): equal blended scores appear in REVERSE original
candidate order, not in original order, because the stable ascending
`np.argsort` is reversed by `[::-1]`. -/
theorem c3_sorted_desc {α : Type} [Inhabited α]
    (nodes : List (MemoryNode α)) (out : ModelOutput) (ext : ExternalMemory)
    (query : Vec) (top_k : ℕ)
    (hne : nodes ≠ [])
    (hfeat : sameLengthsB (featureRows α nodes) = true)
    (hshape : out.node_embeddings.all (fun r => r.length == query.length) = true)
    (hext : ¬(ext.current_size ≠ 0 ∧ ext.key_dim ≠ query.length))
    (hlen1 : out.node_embeddings.length = nodes.length)
    (hlen2 : out.activation_scores.length = nodes.length) :
    activate_memories nodes out ext query top_k =
      (rankedIndices (finalScores (similaritiesTo out.node_embeddings query)
          out.activation_scores) top_k).map
        (fun i => ⟨nodes.getD i default,
          (finalScores (similaritiesTo out.node_embeddings query)
            out.activation_scores).getD i 0,
          (similaritiesTo out.node_embeddings query).getD i 0⟩) ∧
    List.Pairwise
      (fun i j =>
        (finalScores (similaritiesTo out.node_embeddings query)
            out.activation_scores).getD j 0 <
          (finalScores (similaritiesTo out.node_embeddings query)
            out.activation_scores).getD i 0 ∨
        ((finalScores (similaritiesTo out.node_embeddings query)
            out.activation_scores).getD i 0 =
          (finalScores (similaritiesTo out.node_embeddings query)
            out.activation_scores).getD j 0 ∧ j < i))
      (rankedIndices (finalScores (similaritiesTo out.node_embeddings query)
          out.activation_scores) top_k) := by
  constructor
  · simp only [activate_memories]
    rw [if_neg (by simpa using hne), if_neg (not_not_intro hfeat),
      if_neg (not_not_intro hshape), if_neg hext]
    congr 1
    apply List.filter_eq_self.mpr
    intro i hi
    rw [decide_eq_true_eq]
    have hlt := rankedIndices_mem_lt _ _ _ hi
    rw [finalScores, List.length_zipWith, similaritiesTo, List.length_map,
      hlen1, hlen2] at hlt
    omega
  · exact rankedIndices_sorted _ _

theorem c3_sorted_desc_witness :
    (([⟨0, [1], 0, 0⟩, ⟨1, [1], 0, 0⟩] : List (MemoryNode ℕ)) ≠ []) ∧
    (activate_memories (α := ℕ) [⟨0, [1], 0, 0⟩, ⟨1, [1], 0, 0⟩]
        ⟨[[1], [1]], [1 / 2, 1 / 2]⟩ (initMemory 4 1) [1] 2 =
      (rankedIndices (finalScores
          (similaritiesTo [[(1 : ℝ)], [1]] [1]) [1 / 2, 1 / 2]) 2).map
        (fun i => ⟨([⟨0, [1], 0, 0⟩, ⟨1, [1], 0, 0⟩] : List (MemoryNode ℕ)).getD i default,
          (finalScores (similaritiesTo [[(1 : ℝ)], [1]] [1]) [1 / 2, 1 / 2]).getD i 0,
          (similaritiesTo [[(1 : ℝ)], [1]] [1]).getD i 0⟩) ∧
    List.Pairwise
      (fun i j =>
        (finalScores (similaritiesTo [[(1 : ℝ)], [1]] [1]) [1 / 2, 1 / 2]).getD j 0 <
          (finalScores (similaritiesTo [[(1 : ℝ)], [1]] [1]) [1 / 2, 1 / 2]).getD i 0 ∨
        ((finalScores (similaritiesTo [[(1 : ℝ)], [1]] [1]) [1 / 2, 1 / 2]).getD i 0 =
          (finalScores (similaritiesTo [[(1 : ℝ)], [1]] [1]) [1 / 2, 1 / 2]).getD j 0 ∧
          j < i))
      (rankedIndices (finalScores
          (similaritiesTo [[(1 : ℝ)], [1]] [1]) [1 / 2, 1 / 2]) 2)) := by
  constructor
  · simp
  · exact c3_sorted_desc _ _ _ _ _ (by simp)
      (by simp [featureRows, sameLengthsB])
      (by simp)
      (by simp [initMemory])
      (by simp)
      (by simp)

/-! ### Claim C2 -/

/-- Claim C2, as stated, is false: for an id with no stored state,
`_get_memory_states` (lines 399-403) initialises the state with
`torch.randn(settings.GNN_HIDDEN_DIM)` — a fresh random normal draw — not
with the zero vector.  (The zero-vector path in `MemoryGRU.forward` fires
only when the whole state tensor is `None`, which `_get_memory_states`
returns only for an empty id list or on exception, never for an individual
missing id.)  With the reachable draw of all ones the state used is the
all-one vector, not `zeroVec 128`. -/
theorem c2_counterexample :
    (get_memory_states (fun _ => List.replicate 128 1) ["m1"] []).1 =
      [List.replicate 128 (1 : ℝ)] ∧
    List.replicate 128 (1 : ℝ) ≠ zeroVec 128 := by
  constructor
  · rfl
  · intro h
    have h2 : (1 : ℝ) = 0 := by
      have h3 := congrArg (fun l => l.getD 0 0) h
      rwa [show (fun (l : List ℝ) => l.getD 0 0) (List.replicate 128 1) =
            (List.replicate 128 (1 : ℝ)).getD 0 0 from rfl,
        show (fun (l : List ℝ) => l.getD 0 0) (zeroVec 128) =
            (List.replicate 128 (0 : ℝ)).getD 0 0 from rfl,
        List.getD_eq_getElem _ _ (by rw [List.length_replicate]; omega),
        List.getD_eq_getElem _ _ (by rw [List.length_replicate]; omega),
        List.getElem_replicate, List.getElem_replicate] at h3
    norm_num at h2

theorem get_memory_states_lookup_mono (fresh : String → Vec) (l : List String)
    (id : String) (v : Vec) :
    ∀ dict : List (String × Vec), dict.lookup id = some v →
      (get_memory_states fresh l dict).2.lookup id = some v := by
  induction l with
  | nil =>
    intro dict h
    simpa [get_memory_states] using h
  | cons x rest ih =>
    intro dict h
    rw [get_memory_states]
    cases hx : dict.lookup x with
    | some s => simpa using ih dict h
    | none =>
      have hxid : (id == x) = false := by
        rw [beq_eq_false_iff_ne]
        intro he
        rw [← he, h] at hx
        cases hx
      have h2 : ((x, fresh x) :: dict).lookup id = some v := by
        rw [List.lookup_cons, hxid]
        exact h
      simpa using ih _ h2

/-- Claim C2 (amended): for a record identity with no persisted NodeState,
the hidden state used as the previous state is the freshly drawn
`torch.randn` vector (whatever the generator produces, not the zero
vector), and that draw is stored in the state dict under the identity. -/
theorem c2_fresh_state (fresh : String → Vec) (dict : List (String × Vec))
    (id : String) (rest : List String)
    (h : dict.lookup id = none) :
    (get_memory_states fresh (id :: rest) dict).1.getD 0 [] = fresh id ∧
    (get_memory_states fresh (id :: rest) dict).2.lookup id =
      some (fresh id) := by
  constructor
  · rw [get_memory_states, h]
    rfl
  · rw [get_memory_states, h]
    show (get_memory_states fresh rest ((id, fresh id) :: dict)).2.lookup id =
      some (fresh id)
    refine get_memory_states_lookup_mono fresh rest id (fresh id) _ ?_
    rw [List.lookup_cons]
    simp

theorem c2_fresh_state_witness :
    (([] : List (String × Vec)).lookup "m1" = none) ∧
    ((get_memory_states (fun _ => List.replicate 128 1) ["m1"] []).1.getD 0 [] =
      List.replicate 128 (1 : ℝ) ∧
     (get_memory_states (fun _ => List.replicate 128 1) ["m1"] []).2.lookup "m1" =
      some (List.replicate 128 (1 : ℝ))) :=
  ⟨rfl, c2_fresh_state _ _ _ _ rfl⟩

/-! ### Claim C4 -/

/-- Claim C4, as stated, is false: nothing substitutes a zero vector for a
malformed embedding.  A candidate whose embedding dimension differs from the
others makes the feature rows ragged, `torch.tensor(node_features)`
(line 257) raises, the `except` at the `activate_memories` boundary catches
it, and the whole batch is aborted with an empty result — the well-formed
first candidate is not processed either. -/
theorem c4_counterexample :
    activate_memories (α := ℕ) [⟨0, [1], 0, 0⟩, ⟨1, [1, 2], 0, 0⟩]
      ⟨[[1], [1]], [1 / 2, 1 / 2]⟩ (initMemory 4 1) [1] 2 = [] := by
  rw [activate_memories]
  rw [if_neg (by simp)]
  rw [if_pos (by simp [featureRows, sameLengthsB])]

/-- Claim C4 (amended): a candidate embedding of mismatching dimension
aborts the entire call: whenever the feature matrix is ragged,
`activate_memories` returns `[]` via its exception handler; there is no
zero-vector substitution and the rest of the batch is not processed. -/
theorem c4_ragged_aborts {α : Type} [Inhabited α]
    (nodes : List (MemoryNode α)) (out : ModelOutput) (ext : ExternalMemory)
    (query : Vec) (top_k : ℕ)
    (hr : sameLengthsB (featureRows α nodes) = false) :
    activate_memories nodes out ext query top_k = [] := by
  rw [activate_memories]
  split
  · rfl
  · rw [if_pos (by simp [hr])]

theorem c4_ragged_aborts_witness :
    sameLengthsB (featureRows ℕ [⟨0, [1, 2], 0, 0⟩, ⟨1, [1], 0, 0⟩]) = false ∧
    activate_memories (α := ℕ) [⟨0, [1, 2], 0, 0⟩, ⟨1, [1], 0, 0⟩]
      ⟨[[1], [1]], [1 / 2, 1 / 2]⟩ (initMemory 4 1) [1] 2 = [] :=
  ⟨by simp [featureRows, sameLengthsB],
   c4_ragged_aborts _ _ _ _ _ (by simp [featureRows, sameLengthsB])⟩

/-! ### Claim C10 (and the write failure behind C5) -/

theorem write_dim_mismatch (m : ExternalMemory) (key value : Vec)
    (hlt : m.current_size < m.memory_size)
    (hk : key.length ≠ m.key_dim) (hk1 : key.length ≠ 1) :
    m.write key value =
      .error { m with current_size := m.current_size + 1 } := by
  rw [ExternalMemory.write]
  simp only [if_pos hlt, setRow, if_neg hk, if_neg hk1]

/-- Claim C10 (confirmed): `write` is not atomic on error.  Below capacity
the counter is incremented (line 156) before the key row assignment
(line 161); a key whose width differs from `key_dim` (and is not 1, which
numpy would broadcast) raises there, so the store ends up counting one more
occupied slot while `keys`, `values` and `usage` are untouched — the newly
counted slot keeps its all-zero initial content. -/
theorem c10_write_not_atomic (m : ExternalMemory) (key value : Vec)
    (hlt : m.current_size < m.memory_size)
    (hk : key.length ≠ m.key_dim) (hk1 : key.length ≠ 1) :
    ∃ m' : ExternalMemory, m.write key value = .error m' ∧
      m'.current_size = m.current_size + 1 ∧
      m'.keys = m.keys ∧ m'.values = m.values ∧ m'.usage = m.usage := by
  refine ⟨{ m with current_size := m.current_size + 1 },
    write_dim_mismatch m key value hlt hk hk1, rfl, rfl, rfl, rfl⟩

theorem c10_write_not_atomic_witness :
    ((initMemory 2 1).current_size < (initMemory 2 1).memory_size ∧
      ([1, 1] : Vec).length ≠ (initMemory 2 1).key_dim ∧
      ([1, 1] : Vec).length ≠ 1) ∧
    ∃ m' : ExternalMemory,
      (initMemory 2 1).write [1, 1] [1, 1] = .error m' ∧
      m'.current_size = (initMemory 2 1).current_size + 1 ∧
      m'.keys = (initMemory 2 1).keys ∧ m'.values = (initMemory 2 1).values ∧
      m'.usage = (initMemory 2 1).usage :=
  ⟨⟨by simp [initMemory], by simp [initMemory], by simp⟩,
   c10_write_not_atomic _ _ _ (by simp [initMemory]) (by simp [initMemory])
     (by simp)⟩

/-! ### Claim C5 -/

/-- Claim C5 is violated by the code at its default configuration: the
processor's external store is created with `key_dim = GNN_HIDDEN_DIM = 128`
(lines 217-220) while interaction embeddings have
`VECTOR_DIMENSION = 384` entries, so inside `write` the row assignment
raises after `current_size` was already incremented;
`update_memory_with_interaction` swallows the exception (lines 389-390).
Nothing is stored — every key row is still the initial zero row — and the
decay pass never runs: `usage[0]` stays 0 instead of becoming
`1.0 × 0.95`. -/
theorem c5_failing_eval :
    (update_memory_with_interaction (initMemory MAX_MEMORY_NODES GNN_HIDDEN_DIM)
        (List.replicate VECTOR_DIMENSION 1)).current_size = 1 ∧
    (update_memory_with_interaction (initMemory MAX_MEMORY_NODES GNN_HIDDEN_DIM)
        (List.replicate VECTOR_DIMENSION 1)).keys =
      (initMemory MAX_MEMORY_NODES GNN_HIDDEN_DIM).keys ∧
    (update_memory_with_interaction (initMemory MAX_MEMORY_NODES GNN_HIDDEN_DIM)
        (List.replicate VECTOR_DIMENSION 1)).usage.getD 0 0 = 0 ∧
    (0 : ℝ) ≠ 1 * MEMORY_DECAY_FACTOR := by
  have hw := write_dim_mismatch (initMemory MAX_MEMORY_NODES GNN_HIDDEN_DIM)
    (List.replicate VECTOR_DIMENSION 1) (List.replicate VECTOR_DIMENSION 1)
    (by rw [initMemory_current_size, initMemory_memory_size]
        norm_num [MAX_MEMORY_NODES])
    (by rw [List.length_replicate, initMemory_key_dim]
        norm_num [VECTOR_DIMENSION, GNN_HIDDEN_DIM])
    (by rw [List.length_replicate]
        norm_num [VECTOR_DIMENSION])
  rw [update_memory_with_interaction, hw]
  refine ⟨rfl, rfl, ?_, by rw [MEMORY_DECAY_FACTOR]; norm_num⟩
  show (List.replicate MAX_MEMORY_NODES (0 : ℝ)).getD 0 0 = 0
  rw [List.getD_eq_getElem _ _ (by rw [List.length_replicate, MAX_MEMORY_NODES]; omega),
    List.getElem_replicate]

/-! ### Claim C6 -/

/-- Claim C6 is violated by the code at its default configuration: the
combined node embeddings coming out of the network have width
`GNN_HIDDEN_DIM = 128` while the query has `VECTOR_DIMENSION = 384`
entries, so `np.dot(node_embeddings, query_embedding)` (line 331) raises a
`ValueError` on every non-empty candidate set; the handler at line 357
returns `[]`, whose length 0 differs from `min(topK, len(candidates)) =
min 10 1 = 1`. -/
theorem c6_failing_eval :
    activate_memories (α := ℕ) [⟨0, zeroVec VECTOR_DIMENSION, 0, 0⟩]
        ⟨[zeroVec GNN_HIDDEN_DIM], [1 / 2]⟩
        (initMemory MAX_MEMORY_NODES GNN_HIDDEN_DIM)
        (zeroVec VECTOR_DIMENSION) 10 = [] ∧
    ([] : List (ActivatedMemory ℕ)).length ≠ min 10 1 := by
  refine ⟨?_, by simp⟩
  rw [activate_memories]
  rw [if_neg (by simp)]
  rw [if_neg (by simp [featureRows, sameLengthsB])]
  rw [if_pos (by
    intro h
    rw [List.all_cons, List.all_nil, Bool.and_true, beq_iff_eq, length_zeroVec,
      length_zeroVec] at h
    norm_num [GNN_HIDDEN_DIM, VECTOR_DIMENSION] at h)]

/-! ### Claim C7 -/

theorem getD_set_ne {β : Type} (l : List β) (i j : ℕ) (x d : β) (h : i ≠ j) :
    (l.set i x).getD j d = l.getD j d := by
  rw [List.getD_eq_getElem?_getD, List.getElem?_set_ne h,
    ← List.getD_eq_getElem?_getD]

theorem getD_set_self {β : Type} (l : List β) (i : ℕ) (x d : β)
    (h : i < l.length) : (l.set i x).getD i d = x := by
  rw [List.getD_eq_getElem?_getD, List.getElem?_set_self h]
  rfl

/-- Claim C7 (confirmed): writing to a full well-formed store (with matching
key/value widths) replaces exactly one slot — the slot returned by
`np.argmin(usage)`, which attains the minimal usage and is the first such
slot (every earlier slot has strictly larger usage) — sets its usage to 1.0,
leaves every other slot untouched, and keeps the occupied count at
capacity. -/
theorem c7_eviction (m : ExternalMemory) (key value : Vec)
    (hwf : m.wf) (hfull : m.current_size = m.memory_size)
    (hpos : 0 < m.memory_size)
    (hk : key.length = m.key_dim) (hv : value.length = m.key_dim) :
    ∃ m' : ExternalMemory,
      m.write key value = .ok (m', argminIdx m.usage) ∧
      argminIdx m.usage < m.memory_size ∧
      (∀ j, j < m.memory_size →
        m.usage.getD (argminIdx m.usage) 0 ≤ m.usage.getD j 0) ∧
      (∀ j, j < argminIdx m.usage →
        m.usage.getD (argminIdx m.usage) 0 < m.usage.getD j 0) ∧
      m'.keys.getD (argminIdx m.usage) [] = key ∧
      m'.values.getD (argminIdx m.usage) [] = value ∧
      m'.usage.getD (argminIdx m.usage) 0 = 1 ∧
      (∀ j, j < m.memory_size → j ≠ argminIdx m.usage →
        m'.keys.getD j [] = m.keys.getD j [] ∧
        m'.values.getD j [] = m.values.getD j [] ∧
        m'.usage.getD j 0 = m.usage.getD j 0) ∧
      m'.current_size = m.memory_size := by
  obtain ⟨hkl, hvl, hul⟩ := hwf
  have hnlt : ¬ m.current_size < m.memory_size := by omega
  have hne : m.usage ≠ [] := by
    intro h0
    rw [h0] at hul
    simp at hul
    omega
  have hmin_lt : argminIdx m.usage < m.memory_size := by
    have := argminIdx_lt m.usage hne
    omega
  have hw : m.write key value = .ok
      (⟨m.memory_size, m.key_dim, m.keys.set (argminIdx m.usage) key,
        m.values.set (argminIdx m.usage) value,
        m.usage.set (argminIdx m.usage) 1, m.current_size⟩, argminIdx m.usage) := by
    rw [ExternalMemory.write]
    simp only [if_neg hnlt, setRow, if_pos hk, if_pos hv]
  refine ⟨_, hw, hmin_lt, ?_, ?_, ?_, ?_, ?_, ?_, hfull⟩
  · intro j hj
    exact argminIdx_min m.usage j (by omega)
  · intro j hj
    exact argminIdx_first m.usage j hj
  · exact getD_set_self _ _ _ _ (by omega)
  · exact getD_set_self _ _ _ _ (by omega)
  · exact getD_set_self _ _ _ _ (by omega)
  · intro j hj hjne
    exact ⟨getD_set_ne _ _ _ _ _ (Ne.symm hjne),
      getD_set_ne _ _ _ _ _ (Ne.symm hjne),
      getD_set_ne _ _ _ _ _ (Ne.symm hjne)⟩

theorem c7_eviction_witness :
    argminIdx [(5 : ℝ), 1] = 1 ∧
    ∃ m' : ExternalMemory,
      (⟨2, 1, [[2], [3]], [[4], [5]], [5, 1], 2⟩ : ExternalMemory).write [7] [8] =
        .ok (m', argminIdx [(5 : ℝ), 1]) ∧
      m'.keys.getD (argminIdx [(5 : ℝ), 1]) [] = [7] ∧
      m'.usage.getD (argminIdx [(5 : ℝ), 1]) 0 = 1 := by
  constructor
  · have h1 : argminStep [(5 : ℝ), 1] 0 0 = 0 := by
      unfold argminStep
      rw [if_neg (lt_irrefl _)]
    have h2 : argminStep [(5 : ℝ), 1] 0 1 = 1 := by
      unfold argminStep
      rw [if_pos (by show (1 : ℝ) < 5; norm_num)]
    rw [argminIdx_eq_aux]
    show argminAux [(5 : ℝ), 1] 2 = 1
    rw [argminAux_succ, argminAux_succ, argminAux_zero, h1, h2]
  · obtain ⟨m', hw, -, -, -, hks, -, hu, -, -⟩ :=
      c7_eviction (⟨2, 1, [[2], [3]], [[4], [5]], [5, 1], 2⟩ : ExternalMemory)
        [7] [8] ⟨rfl, rfl, rfl⟩ rfl (by norm_num) rfl rfl
    exact ⟨m', hw, hks, hu⟩

/-! ### Claim C8 -/

theorem foldl_set_zero_getD (l : List ℕ) :
    ∀ (u : List ℝ) (i : ℕ), i < u.length →
      (l.foldl (fun u j => u.set j 0) u).getD i 0 =
        if i ∈ l then 0 else u.getD i 0 := by
  induction l with
  | nil =>
    intro u i hi
    simp
  | cons j rest ih =>
    intro u i hi
    rw [List.foldl_cons]
    rw [ih (u.set j 0) i (by simpa using hi)]
    by_cases hmem : i ∈ rest
    · rw [if_pos hmem, if_pos (List.mem_cons_of_mem j hmem)]
    · rw [if_neg hmem]
      by_cases hij : i = j
      · subst hij
        rw [getD_set_self _ _ _ _ hi, if_pos (List.mem_cons_self i rest)]
      · rw [getD_set_ne _ _ _ _ _ (Ne.symm hij), if_neg (by
          intro hc
          rcases List.mem_cons.mp hc with h | h
          · exact hij h
          · exact hmem h)]

theorem mem_take_filter_range (p : ℕ → Bool) :
    ∀ (N m i : ℕ),
      (i ∈ ((List.range N).filter p).take m ↔
        p i = true ∧ i < N ∧ ((List.range i).filter p).length < m) := by
  intro N
  induction N with
  | zero => simp
  | succ n ih =>
    intro m i
    rw [List.range_succ, List.filter_append, List.take_append_eq_append_take,
      List.mem_append]
    rw [ih m i]
    by_cases hp : p n = true
    · have hfn : ([n].filter p) = [n] := by
        rw [List.filter_cons, if_pos hp]
        rfl
      rw [hfn]
      constructor
      · rintro (⟨h1, h2, h3⟩ | h)
        · exact ⟨h1, by omega, h3⟩
        · have hm : 0 < m - ((List.range n).filter p).length := by
            by_contra hc
            push_neg at hc
            interval_cases h' : m - ((List.range n).filter p).length
            · simp at h
          have hin : i = n := by
            have : i ∈ [n] := List.take_subset _ _ h
            simpa using this
          subst hin
          refine ⟨hp, by omega, by omega⟩
      · rintro ⟨h1, h2, h3⟩
        rcases Nat.lt_succ_iff_lt_or_eq.mp h2 with h2' | h2'
        · exact Or.inl ⟨h1, h2', h3⟩
        · subst h2'
          right
          have hm : 0 < m - ((List.range i).filter p).length := by omega
          rcases Nat.exists_eq_add_of_lt hm with ⟨r, hr⟩
          rw [show m - ((List.range i).filter p).length = r + 1 by omega]
          simp
    · have hfn : ([n].filter p) = [] := by
        rw [List.filter_cons, if_neg hp]
        rfl
      rw [hfn]
      simp only [List.take_nil, List.not_mem_nil, or_false]
      constructor
      · rintro ⟨h1, h2, h3⟩
        exact ⟨h1, by omega, h3⟩
      · rintro ⟨h1, h2, h3⟩
        have hin : i ≠ n := by
          intro hc
          subst hc
          exact hp h1
        exact ⟨h1, by omega, h3⟩

/-- Claim C8 (confirmed): after `_apply_memory_decay` with factor `d`, slot
`i` holds its prior usage times `d`, except that it is zeroed exactly when
its decayed usage falls below the threshold and its rank among the
below-threshold slots (the number of such slots with smaller index) is
within the first half `⌊k/2⌋` of the `k` below-threshold slots — the
deterministic "zero the first half by ascending slot index" rule. -/
theorem c8_decay (m : ExternalMemory) (d : ℝ) (i : ℕ)
    (hi : i < m.usage.length) :
    (apply_memory_decay m d).usage.getD i 0 =
      if m.usage.getD i 0 * d < lowThreshold ∧
          ((List.range i).filter fun j =>
              decide (m.usage.getD j 0 * d < lowThreshold)).length <
            ((List.range m.usage.length).filter fun j =>
              decide (m.usage.getD j 0 * d < lowThreshold)).length / 2
      then 0 else m.usage.getD i 0 * d := by
  have hmap : ∀ j, j < m.usage.length →
      (m.usage.map fun x => x * d).getD j 0 = m.usage.getD j 0 * d := by
    intro j hj
    rw [List.getD_eq_getElem _ _ (by simpa using hj), List.getElem_map,
      List.getD_eq_getElem _ _ hj]
  have hlen : (m.usage.map fun x => x * d).length = m.usage.length := by simp
  have hfilter : ((List.range (m.usage.map fun x => x * d).length).filter
      fun j => decide ((m.usage.map fun x => x * d).getD j 0 < lowThreshold)) =
      ((List.range m.usage.length).filter
        fun j => decide (m.usage.getD j 0 * d < lowThreshold)) := by
    rw [hlen]
    apply List.filter_congr
    intro j hj
    rw [List.mem_range] at hj
    rw [hmap j hj]
  have husage : (apply_memory_decay m d).usage =
      ((((List.range (m.usage.map fun x => x * d).length).filter fun j =>
          decide ((m.usage.map fun x => x * d).getD j 0 < lowThreshold)).take
        (((List.range (m.usage.map fun x => x * d).length).filter fun j =>
          decide ((m.usage.map fun x => x * d).getD j 0 < lowThreshold)).length
            / 2)).foldl
        (fun u j => u.set j 0) (m.usage.map fun x => x * d)) := rfl
  rw [husage, hfilter]
  rw [foldl_set_zero_getD _ _ _ (by simpa using hi)]
  have hmem : i ∈ (((List.range m.usage.length).filter
        fun j => decide (m.usage.getD j 0 * d < lowThreshold)).take
      ((((List.range m.usage.length).filter
        fun j => decide (m.usage.getD j 0 * d < lowThreshold))).length / 2)) ↔
      (m.usage.getD i 0 * d < lowThreshold ∧
        ((List.range i).filter fun j =>
            decide (m.usage.getD j 0 * d < lowThreshold)).length <
          ((List.range m.usage.length).filter fun j =>
            decide (m.usage.getD j 0 * d < lowThreshold)).length / 2) := by
    rw [mem_take_filter_range]
    simp only [decide_eq_true_eq]
    constructor
    · rintro ⟨h1, _, h3⟩
      exact ⟨h1, h3⟩
    · rintro ⟨h1, h3⟩
      exact ⟨h1, hi, h3⟩
  by_cases hcond : m.usage.getD i 0 * d < lowThreshold ∧
      ((List.range i).filter fun j =>
          decide (m.usage.getD j 0 * d < lowThreshold)).length <
        ((List.range m.usage.length).filter fun j =>
          decide (m.usage.getD j 0 * d < lowThreshold)).length / 2
  · rw [if_pos (hmem.mpr hcond), if_pos hcond]
  · rw [if_neg (fun hc => hcond (hmem.mp hc)), if_neg hcond, hmap i hi]

/-- A small concrete store used to exercise the decay pass: two occupied
slots with usages 1/1000 and 2/1000, both of which fall below the cleanup
threshold after one decay step. -/
noncomputable def c8demoMem : ExternalMemory :=
  ⟨2, 1, [[0], [0]], [[0], [0]], [1 / 1000, 2 / 1000], 2⟩

theorem c8_decay_witness :
    0 < c8demoMem.usage.length ∧
    (apply_memory_decay c8demoMem (19 / 20)).usage.getD 0 0 = 0 := by
  have hi : 0 < c8demoMem.usage.length := by
    show (0 : ℕ) < 2
    norm_num
  refine ⟨hi, ?_⟩
  have h := c8_decay c8demoMem (19 / 20) 0 hi
  have hc1 : c8demoMem.usage.getD 0 0 * (19 / 20) < lowThreshold := by
    show (1 / 1000 : ℝ) * (19 / 20) < lowThreshold
    rw [lowThreshold]
    norm_num
  have hc2' : c8demoMem.usage.getD 1 0 * (19 / 20) < lowThreshold := by
    show (2 / 1000 : ℝ) * (19 / 20) < lowThreshold
    rw [lowThreshold]
    norm_num
  have hK : ((List.range c8demoMem.usage.length).filter fun j =>
      decide (c8demoMem.usage.getD j 0 * (19 / 20) < lowThreshold)).length = 2 := by
    rw [show List.range c8demoMem.usage.length = [0, 1] from rfl]
    rw [List.filter_cons, List.filter_cons, List.filter_nil]
    rw [if_pos (decide_eq_true hc1), if_pos (decide_eq_true hc2')]
    rfl
  have hrank : ((List.range 0).filter fun j =>
      decide (c8demoMem.usage.getD j 0 * (19 / 20) < lowThreshold)).length = 0 := rfl
  rw [h, if_pos ⟨hc1, by rw [hrank, hK]; norm_num⟩]

/-! ### Claim C9 -/

theorem rankedIndices_singleton (x : ℝ) : rankedIndices [x] 1 = [0] := by
  rw [rankedIndices, argsortAsc_singleton]
  rfl

theorem take_one_set_replicate {β : Type} (n : ℕ) (hn : 0 < n) (x y : β) :
    ((List.replicate n x).set 0 y).take 1 = [y] := by
  cases n with
  | zero => omega
  | succ m =>
    rw [List.replicate_succ]
    rfl

/-- Claim C9, as stated, is false: the similarity returned for the slot
holding `K` is `‖K‖² / (‖K‖ + 1e-8)²`, which is close to 1 only when `‖K‖`
dwarfs the 1e-8 guard.  For the non-zero key `[1e-8]` the round trip does
return the stored value, but with similarity exactly 1/4 — far outside any
floating tolerance of 1.0. -/
theorem c9_counterexample :
    memEps ≠ 0 ∧
    (initMemory 1 1).write [memEps] [3] =
      .ok (⟨1, 1, [[memEps]], [[3]], [1], 1⟩, 0) ∧
    (⟨1, 1, [[memEps]], [[3]], [1], 1⟩ : ExternalMemory).read [memEps] 1 =
      .ok (([[3]], [cosSimEps [memEps] [memEps]]),
        ⟨1, 1, [[memEps]], [[3]], [1 + 1 / 10], 1⟩) ∧
    cosSimEps [memEps] [memEps] = 1 / 4 ∧
    ¬ |(1 / 4 : ℝ) - 1| ≤ 1 / 10 := by
  refine ⟨by rw [memEps]; norm_num, rfl, rfl, ?_, by
    rw [abs_of_nonpos (by norm_num)]
    norm_num⟩
  have hss : sumSq [memEps] = memEps * memEps := by
    rw [sumSq_cons, sumSq_nil]
    ring
  have hn : norml [memEps] = memEps := by
    rw [norml, hss, Real.sqrt_mul_self (le_of_lt memEps_pos)]
  have hd : dotl [memEps] [memEps] = memEps * memEps := by
    rw [dotl_cons, dotl_nil_left]
    ring
  rw [cosSimEps, hd, hn, memEps]
  norm_num

/-- Claim C9 (amended): writing `(K, V)` into an EMPTY store (capacity at
least 1, matching widths) and reading back with `K` returns `V`, with
similarity `‖K‖²/(‖K‖+1e-8)²`; when `sumSq K ≥ 1` this lies within
`2 × 1e-8` of 1.  (For keys with norm comparable to the 1e-8 guard the
similarity degrades — see `c9_counterexample` — and on a store with other
entries a longer parallel key can outrank the written slot, so the original
unconditional claim does not hold.) -/
theorem c9_roundtrip_empty (n d : ℕ) (K V : Vec)
    (hn : 0 < n) (hk : K.length = d) (hv : V.length = d)
    (hK : 1 ≤ sumSq K) :
    ∃ (M M2 : ExternalMemory) (s : ℝ),
      (initMemory n d).write K V = .ok (M, 0) ∧
      M.read K 1 = .ok (([V], [s]), M2) ∧
      1 - 2 * memEps ≤ s ∧ s ≤ 1 := by
  have hlt : (initMemory n d).current_size < (initMemory n d).memory_size := by
    rw [initMemory_current_size, initMemory_memory_size]
    omega
  have hw : (initMemory n d).write K V =
      .ok (⟨n, d, (List.replicate n (zeroVec d)).set 0 K,
        (List.replicate n (zeroVec d)).set 0 V,
        (List.replicate n (0 : ℝ)).set 0 1, 1⟩, 0) := by
    rw [ExternalMemory.write]
    simp only [if_pos hlt, setRow, initMemory_key_dim, if_pos hk, if_pos hv]
    rfl
  have hr : (⟨n, d, (List.replicate n (zeroVec d)).set 0 K,
      (List.replicate n (zeroVec d)).set 0 V,
      (List.replicate n (0 : ℝ)).set 0 1, 1⟩ : ExternalMemory).read K 1 =
      .ok (([V], [cosSimEps K K]),
        ⟨n, d, (List.replicate n (zeroVec d)).set 0 K,
          (List.replicate n (zeroVec d)).set 0 V,
          (((List.replicate n (0 : ℝ)).set 0 1).set 0
            (((List.replicate n (0 : ℝ)).set 0 1).getD 0 0 + 1 / 10)), 1⟩) := by
    rw [ExternalMemory.read]
    rw [if_neg (by norm_num)]
    rw [if_neg (by rw [hk]; exact fun h => h rfl)]
    show Except.ok
      (((rankedIndices (((List.replicate n (zeroVec d)).set 0 K).take 1 |>.map
          fun kv => cosSimEps kv K) 1).map
        (fun i => ((List.replicate n (zeroVec d)).set 0 V).getD i []),
       (rankedIndices (((List.replicate n (zeroVec d)).set 0 K).take 1 |>.map
          fun kv => cosSimEps kv K) 1).map
        (fun i => (((List.replicate n (zeroVec d)).set 0 K).take 1 |>.map
          fun kv => cosSimEps kv K).getD i 0)),
       (⟨n, d, (List.replicate n (zeroVec d)).set 0 K,
        (List.replicate n (zeroVec d)).set 0 V,
        (rankedIndices (((List.replicate n (zeroVec d)).set 0 K).take 1 |>.map
          fun kv => cosSimEps kv K) 1).foldl
          (fun u i => u.set i (u.getD i 0 + 1 / 10))
          ((List.replicate n (0 : ℝ)).set 0 1), 1⟩ : ExternalMemory)) =
      Except.ok (([V], [cosSimEps K K]),
        (⟨n, d, (List.replicate n (zeroVec d)).set 0 K,
          (List.replicate n (zeroVec d)).set 0 V,
          (((List.replicate n (0 : ℝ)).set 0 1).set 0
            (((List.replicate n (0 : ℝ)).set 0 1).getD 0 0 + 1 / 10)), 1⟩ :
          ExternalMemory))
    rw [take_one_set_replicate n hn _ _]
    rw [show ([K].map fun kv => cosSimEps kv K) = [cosSimEps K K] from rfl]
    rw [rankedIndices_singleton]
    rw [show ([0].map fun i => ((List.replicate n (zeroVec d)).set 0 V).getD i []) =
      [((List.replicate n (zeroVec d)).set 0 V).getD 0 []] from rfl]
    rw [getD_set_self _ _ _ _ (by rw [List.length_replicate]; omega)]
    rfl
  refine ⟨_, _, cosSimEps K K, hw, hr, ?_, ?_⟩
  · have hA0 : (0 : ℝ) ≤ sumSq K := sumSq_nonneg K
    have hN1 : 1 ≤ norml K := by
      rw [norml]
      calc (1 : ℝ) = Real.sqrt 1 := Real.sqrt_one.symm
        _ ≤ Real.sqrt (sumSq K) := Real.sqrt_le_sqrt hK
    have hN2 : norml K ^ 2 = sumSq K := Real.sq_sqrt hA0
    have hpos : 0 < norml K + memEps := by
      have := memEps_pos
      linarith
    rw [cosSimEps, dotl_self, div_div, le_div_iff₀ (mul_pos hpos hpos)]
    nlinarith [memEps_pos, mul_nonneg (le_of_lt memEps_pos)
      (sub_nonneg.mpr hN1), sq_nonneg memEps]
  · have hA0 : (0 : ℝ) ≤ sumSq K := sumSq_nonneg K
    have hN1 : 1 ≤ norml K := by
      rw [norml]
      calc (1 : ℝ) = Real.sqrt 1 := Real.sqrt_one.symm
        _ ≤ Real.sqrt (sumSq K) := Real.sqrt_le_sqrt hK
    have hN2 : norml K ^ 2 = sumSq K := Real.sq_sqrt hA0
    have hpos : 0 < norml K + memEps := by
      have := memEps_pos
      have := norml_nonneg K
      linarith
    rw [cosSimEps, dotl_self, div_div, div_le_one (mul_pos hpos hpos)]
    nlinarith [memEps_pos]

theorem c9_roundtrip_empty_witness :
    ((1 : ℝ) ≤ sumSq [1]) ∧
    ∃ (M M2 : ExternalMemory) (s : ℝ),
      (initMemory 1 1).write [1] [2] = .ok (M, 0) ∧
      M.read [1] 1 = .ok (([[2]], [s]), M2) ∧
      1 - 2 * memEps ≤ s ∧ s ≤ 1 := by
  have h1 : (1 : ℝ) ≤ sumSq [1] := by
    rw [sumSq_cons, sumSq_nil]
    norm_num
  exact ⟨h1, c9_roundtrip_empty 1 1 [1] [2] (by omega) rfl rfl h1⟩
